import Mathlib

/-
Verification of the per-frame draw-command accumulator of the vger 2D
vector-graphics renderer (Sources/vger/vger_private.h).

Shallow embedding conventions:
  * `float` / `float2` / `float4` values are modelled exactly, as rationals
    (the claims under study involve only comparisons, copies and field
    arithmetic, no rounding-sensitive computation).
  * `size_t` arithmetic is `Nat` arithmetic modulo 2^64; `uint16_t` counters
    are `Nat` values kept below 2^16, incremented modulo 2^16.
  * raw write pointers (`cvPtr`, `xformPtr`, `paintPtr`) are modelled as a
    memory function `Nat → item` together with a cursor offset from the
    buffer base.
  * functions whose bodies are not part of the given source (only declared
    in the header: the text-cache prune pass, `renderCachedText`, the
    scene-buffer `advance` step) are modelled from the specification; their
    doc comments say so explicitly.
-/

namespace Vger

/-- simd `float2`, modelled exactly over the rationals. -/
structure Float2 where
  x : ℚ
  y : ℚ
  deriving DecidableEq, Repr, Inhabited

/-- simd `float4` (an RGBA color), modelled exactly over the rationals. -/
structure Float4 where
  r : ℚ
  g : ℚ
  b : ℚ
  a : ℚ
  deriving DecidableEq, Repr, Inhabited

/-- simd `float3x3`, by entries: `mIJ` is the entry in row `I`, column `J`. -/
structure Mat3 where
  m00 : ℚ
  m01 : ℚ
  m02 : ℚ
  m10 : ℚ
  m11 : ℚ
  m12 : ℚ
  m20 : ℚ
  m21 : ℚ
  m22 : ℚ
  deriving DecidableEq, Repr, Inhabited

/-- The 3x3 identity matrix. -/
def m3id : Mat3 := ⟨1, 0, 0, 0, 1, 0, 0, 0, 1⟩

/-- Matrix product of two 3x3 matrices. -/
def m3mul (a b : Mat3) : Mat3 :=
  { m00 := a.m00 * b.m00 + a.m01 * b.m10 + a.m02 * b.m20
    m01 := a.m00 * b.m01 + a.m01 * b.m11 + a.m02 * b.m21
    m02 := a.m00 * b.m02 + a.m01 * b.m12 + a.m02 * b.m22
    m10 := a.m10 * b.m00 + a.m11 * b.m10 + a.m12 * b.m20
    m11 := a.m10 * b.m01 + a.m11 * b.m11 + a.m12 * b.m21
    m12 := a.m10 * b.m02 + a.m11 * b.m12 + a.m12 * b.m22
    m20 := a.m20 * b.m00 + a.m21 * b.m10 + a.m22 * b.m20
    m21 := a.m20 * b.m01 + a.m21 * b.m11 + a.m22 * b.m21
    m22 := a.m20 * b.m02 + a.m21 * b.m12 + a.m22 * b.m22 }

/-- Determinant of a 3x3 matrix (cofactor expansion along the first row). -/
def m3det (m : Mat3) : ℚ :=
  m.m00 * (m.m11 * m.m22 - m.m12 * m.m21)
    - m.m01 * (m.m10 * m.m22 - m.m12 * m.m20)
    + m.m02 * (m.m10 * m.m21 - m.m11 * m.m20)

/-- Inverse of a 3x3 matrix, adjugate over determinant (the simd `inverse`). -/
def m3inv (m : Mat3) : Mat3 :=
  let d := m3det m
  { m00 := (m.m11 * m.m22 - m.m12 * m.m21) / d
    m01 := (m.m02 * m.m21 - m.m01 * m.m22) / d
    m02 := (m.m01 * m.m12 - m.m02 * m.m11) / d
    m10 := (m.m12 * m.m20 - m.m10 * m.m22) / d
    m11 := (m.m00 * m.m22 - m.m02 * m.m20) / d
    m12 := (m.m02 * m.m10 - m.m00 * m.m12) / d
    m20 := (m.m10 * m.m21 - m.m11 * m.m20) / d
    m21 := (m.m01 * m.m20 - m.m00 * m.m21) / d
    m22 := (m.m00 * m.m11 - m.m01 * m.m10) / d }

/-- The `vgerPaint` record: a paint transform, inner and outer colors, and a
texture index (`image = -1` means no texture). -/
structure VgerPaint where
  xform : Mat3
  innerColor : Float4
  outerColor : Float4
  image : Int
  deriving DecidableEq, Repr, Inhabited

/-- Prim buffer capacity: `int maxPrims = 65536;`. -/
def maxPrims : Nat := 65536

/-- CV buffer capacity: `int maxCvs = 1024*1024;`. -/
def maxCvs : Nat := 1024 * 1024

/-- The modulus of `uint16_t` arithmetic. -/
def u16Mod : Nat := 2 ^ 16

/-- The control-vertex arena of the current scene buffer: the buffer memory
(as a function from offsets), the write cursor `cvPtr` (as an offset from the
buffer base), and the counter `cvCount` (an `int`, always nonnegative here). -/
structure CvArena where
  cvMem : Nat → Float2
  cvPtr : Nat
  cvCount : Nat

/-- `vger::addCV`: writes `p` at the cursor and advances cursor and count,
provided `cvCount < maxCvs`; otherwise does nothing. -/
def addCV (s : CvArena) (p : Float2) : CvArena :=
  if s.cvCount < maxCvs then
    { cvMem := Function.update s.cvMem s.cvPtr p
      cvPtr := s.cvPtr + 1
      cvCount := s.cvCount + 1 }
  else s

/-- The transform arena of the current scene buffer: buffer memory, write
cursor `xformPtr` (an offset from the buffer base), and the `uint16_t`
counter `xformCount` (kept below `2^16`, incremented modulo `2^16`). -/
structure XformArena where
  xformMem : Nat → Mat3
  xformPtr : Nat
  xformCount : Nat

/-- `vger::addxform`: if `xformCount < maxPrims` (an `int` comparison after
integral promotion of the `uint16_t` counter), writes `M` at the cursor,
advances the cursor, and returns the old counter while incrementing it with
`uint16_t` wrap-around (`xformCount++`); otherwise returns 0 with no write. -/
def addxform (s : XformArena) (M : Mat3) : XformArena × Nat :=
  if s.xformCount < maxPrims then
    ({ xformMem := Function.update s.xformMem s.xformPtr M
       xformPtr := s.xformPtr + 1
       xformCount := (s.xformCount + 1) % u16Mod }, s.xformCount)
  else (s, 0)

/-- The paint arena of the current scene buffer, mirroring `XformArena`. -/
structure PaintArena where
  paintMem : Nat → VgerPaint
  paintPtr : Nat
  paintCount : Nat

/-- `vger::addPaint`: identical structure to `addxform`, over paints. -/
def addPaint (s : PaintArena) (paint : VgerPaint) : PaintArena × Nat :=
  if s.paintCount < maxPrims then
    ({ paintMem := Function.update s.paintMem s.paintPtr paint
       paintPtr := s.paintPtr + 1
       paintCount := (s.paintCount + 1) % u16Mod }, s.paintCount)
  else (s, 0)

/-- A fresh transform arena (construction state: all-zero memory, cursor at
the buffer base, counter zero). -/
def xformInit : XformArena :=
  { xformMem := fun _ => m3id, xformPtr := 0, xformCount := 0 }

/-- The transform arena after `n` consecutive `addxform` calls from a fresh
arena (each storing the identity matrix; the stored value is irrelevant to
the cursor and counter evolution). -/
def addxformN : Nat → XformArena
  | 0 => xformInit
  | n + 1 => (addxform (addxformN n) m3id).1

/-- A fresh paint arena. -/
def paintInit : PaintArena :=
  { paintMem := fun _ => default, paintPtr := 0, paintCount := 0 }

/-- The paint arena after `n` consecutive `addPaint` calls from a fresh
arena. -/
def addPaintN : Nat → PaintArena
  | 0 => paintInit
  | n + 1 => (addPaint (addPaintN n) default).1

/-- `TextLayoutKey`: cache key for text layout, from the header. `float`
fields are modelled exactly as rationals. -/
structure TextLayoutKey where
  str : String
  size : ℚ
  align : Int
  breakRowWidth : ℚ
  deriving DecidableEq, Repr, Inhabited

/-- The generated `operator==(TextLayoutKey, TextLayoutKey)`: `std::tie`
tuple equality, which is the conjunction of the componentwise equalities of
`str`, `size`, `align` and `breakRowWidth` in order. -/
def tlkEq (a b : TextLayoutKey) : Bool :=
  decide (a.str = b.str) && decide (a.size = b.size)
    && decide (a.align = b.align) && decide (a.breakRowWidth = b.breakRowWidth)

/-- One step of `hash_combine`:
`seed ^= hasher(v) + 0x9e3779b9 + (seed<<6) + (seed>>2)` in `size_t`
arithmetic, with `h` the field hash value. -/
def hashCombineStep (seed h : Nat) : Nat :=
  Nat.xor seed ((h + 0x9e3779b9 + seed * 2 ^ 6 + seed / 2 ^ 2) % 2 ^ 64)

/-- The generated `std::hash<TextLayoutKey>`: seed 0, combined with the field
hashes of `str`, `size`, `align`, `breakRowWidth` in order. The standard
library field hashers `std::hash<std::string>`, `std::hash<float>`,
`std::hash<int>` are implementation-defined, so they are parameters. -/
def tlkHash (hstr : String → Nat) (hflt : ℚ → Nat) (hint : Int → Nat)
    (k : TextLayoutKey) : Nat :=
  hashCombineStep
    (hashCombineStep
      (hashCombineStep
        (hashCombineStep 0 (hstr k.str))
        (hflt k.size))
      (hint k.align))
    (hflt k.breakRowWidth)

/-- A `vgerPrim` as far as the text cache is concerned: a record carrying a
paint index and a transform index (16-bit handles) plus opaque remaining
geometry payload. The full `vgerPrim` layout lives in a header outside the
given source; only the handle fields are rewritten by the cache. -/
structure VPrim where
  geom : Nat
  paint : Nat
  xform : Nat
  deriving DecidableEq, Repr, Inhabited

/-- `TextLayoutInfo`: the frame in which the string was last rendered, and
the prims that are copied to output. -/
structure TextLayoutInfo where
  lastFrame : Nat
  prims : List VPrim
  deriving DecidableEq, Repr, Inhabited

/-- The `textCache` field, `std::unordered_map<TextLayoutKey, TextLayoutInfo>`,
modelled as an association list looked up with the key's `operator==`. -/
abbrev Cache : Type := List (TextLayoutKey × TextLayoutInfo)

/-- Lookup in the text cache: the value of the first entry whose key compares
equal to `k` under `operator==`. -/
def lookupCache : Cache → TextLayoutKey → Option TextLayoutInfo
  | [], _ => none
  | (k1, i) :: rest, k => if tlkEq k k1 then some i else lookupCache rest k

/-- Updating the `lastFrame` stamp of the entries for `k` to frame `f`
(entries for other keys are untouched). -/
def setLastFrame : Cache → TextLayoutKey → Nat → Cache
  | [], _, _ => []
  | (k1, i) :: rest, k, f =>
    (if tlkEq k k1 then (k1, { i with lastFrame := f }) else (k1, i))
      :: setLastFrame rest k f

/-- Modelled from the spec: the per-frame prune pass over `textCache`, whose
body is not in the given source (only the `currentFrame` field and its doc
comment are). Every cache entry whose `lastFrame` differs from the current
frame `f` is removed. -/
def pruneCache (c : Cache) (f : Nat) : Cache :=
  c.filter fun kv => decide (kv.2.lastFrame = f)

/-- Modelled from the spec: rendering one string with key `k` during frame
`f`. On a cache hit the entry's stamp is refreshed to `f`; on a miss the
string is shaped (by the external shaper, modelled as the pure function
`sh`) and inserted with stamp `f`. -/
def touchKey (sh : TextLayoutKey → List VPrim) (f : Nat) (c : Cache)
    (k : TextLayoutKey) : Cache :=
  match lookupCache c k with
  | some _ => setLastFrame c k f
  | none => c ++ [(k, { lastFrame := f, prims := sh k })]

/-- Modelled from the spec: one frame with frame number `f` in which exactly
the keys of `ks` are rendered, followed by that frame's prune pass. -/
def runFrame (sh : TextLayoutKey → List VPrim) (c : Cache) (f : Nat)
    (ks : List TextLayoutKey) : Cache :=
  pruneCache (ks.foldl (touchKey sh f) c) f

/-- Modelled from the spec: consecutive frames `f`, `f+1`, ... rendering the
successive key lists of `kss` (`currentFrame` increments once per frame). -/
def runFrames (sh : TextLayoutKey → List VPrim) (c : Cache) (f : Nat) :
    List (List TextLayoutKey) → Cache
  | [] => c
  | ks :: rest => runFrames sh (runFrame sh c f ks) (f + 1) rest

/-- The state touched by `renderCachedText`: the text cache, the current
frame counter, and the prims accumulated in the current scene buffer. -/
structure TextState where
  cache : Cache
  currentFrame : Nat
  scenePrims : List VPrim

/-- Rewriting one cached prim to the caller-supplied per-frame paint and
transform handles. -/
def rewriteHandles (paint xform : Nat) (p : VPrim) : VPrim :=
  { p with paint := paint, xform := xform }

/-- Modelled from the spec: `vger::renderCachedText(key, paint, xform)`,
declared in the header with its body elsewhere. Looks `key` up in
`textCache`; on a hit, copies the cached prims into the current scene buffer
with their paint/transform handles rewritten to the caller's, stamps the
entry with `lastFrame = currentFrame`, and returns true; on a miss, returns
false and changes nothing. -/
def renderCachedText (st : TextState) (key : TextLayoutKey)
    (paint xform : Nat) : TextState × Bool :=
  match lookupCache st.cache key with
  | some info =>
      ({ st with
          cache := setLastFrame st.cache key st.currentFrame
          scenePrims :=
            st.scenePrims ++ info.prims.map (rewriteHandles paint xform) },
        true)
  | none => (st, false)

/-- The per-buffer arena counts of one `vgerScene` (primitive, control
vertex, transform and paint arenas). The `vgerScene` layout itself lives in
a header outside the given source; the claims only concern the counts. -/
structure SceneCounts where
  primCount : Nat
  cvCount : Nat
  xformCount : Nat
  paintCount : Nat
  deriving DecidableEq, Repr, Inhabited

/-- The scene buffer set: `vgerScene scenes[3]` and `int curBuffer`. -/
structure BufferSet where
  scenes : Fin 3 → SceneCounts
  curBuffer : Nat

/-- Modelled from the spec: `advance()`, called once at frame end; it
increments the buffer index modulo 3 and resets the four arenas of the
newly-current buffer to zero count. Its body is not in the given source
(only the `scenes` and `curBuffer` fields are). -/
def advance (s : BufferSet) : BufferSet :=
  let nb := (s.curBuffer + 1) % 3
  { curBuffer := nb
    scenes := Function.update s.scenes ⟨nb, Nat.mod_lt _ (by norm_num)⟩
      ⟨0, 0, 0, 0⟩ }

/-- Squared euclidean length of a `float2`. The source guards with
`length(d) < 0.0001f`; in exact arithmetic `length d < e` for `e > 0` is
equivalent to `lengthSq d < e^2`, which avoids the square root. -/
def lengthSq (v : Float2) : ℚ := v.x ^ 2 + v.y ^ 2

/-- The gradient direction `d` used by `makeLinearGradient`: `end - start`,
replaced by `(0, 1)` when its length is below `0.0001`. -/
def gradDir (start stop : Float2) : Float2 :=
  let d : Float2 := ⟨stop.x - start.x, stop.y - start.y⟩
  if lengthSq d < (1 / 10000) ^ 2 then ⟨0, 1⟩ else d

/-- The matrix `float3x3{float3{d.x, d.y, 0}, float3{-d.y, d.x, 0},
float3{start.x, start.y, 1}}` whose inverse `makeLinearGradient` stores
(the simd constructor takes columns). -/
def gradMatrix (start stop : Float2) : Mat3 :=
  let d := gradDir start stop
  { m00 := d.x, m01 := -d.y, m02 := start.x
    m10 := d.y, m11 := d.x, m12 := start.y
    m20 := 0, m21 := 0, m22 := 1 }

/-- `makeLinearGradient` from the header: computes a transform aligned to the
line from `start` to `stop` (falling back to direction `(0,1)` for a
degenerate line), stores its inverse, the two colors, and `image = -1`. -/
def makeLinearGradient (start stop : Float2)
    (innerColor outerColor : Float4) : VgerPaint :=
  { xform := m3inv (gradMatrix start stop)
    innerColor := innerColor
    outerColor := outerColor
    image := -1 }

/-! ## Arena lemmas -/

theorem u16Mod_eq : u16Mod = 65536 := by norm_num [u16Mod]

theorem maxPrims_eq_u16Mod : maxPrims = u16Mod := by norm_num [maxPrims, u16Mod]

/-- Closed form for the cursor and counter after `n` fresh `addxform` calls:
the cursor is at offset `n` and the `uint16_t` counter holds `n mod 2^16`. -/
theorem addxformN_spec (n : Nat) :
    (addxformN n).xformPtr = n ∧ (addxformN n).xformCount = n % u16Mod := by
  induction n with
  | zero => simp [addxformN, xformInit]
  | succ n ih =>
    obtain ⟨hp, hc⟩ := ih
    have hguard : (addxformN n).xformCount < maxPrims := by
      rw [hc, maxPrims_eq_u16Mod]
      exact Nat.mod_lt _ (by norm_num [u16Mod])
    refine ⟨?_, ?_⟩
    · simp [addxformN, addxform, hguard, hp]
    · have hstep : (addxformN (n + 1)).xformCount
          = ((addxformN n).xformCount + 1) % u16Mod := by
        simp [addxformN, addxform, hguard]
      rw [hstep, hc, u16Mod_eq]
      omega

/-- Closed form for the cursor and counter after `n` fresh `addPaint` calls. -/
theorem addPaintN_spec (n : Nat) :
    (addPaintN n).paintPtr = n ∧ (addPaintN n).paintCount = n % u16Mod := by
  induction n with
  | zero => simp [addPaintN, paintInit]
  | succ n ih =>
    obtain ⟨hp, hc⟩ := ih
    have hguard : (addPaintN n).paintCount < maxPrims := by
      rw [hc, maxPrims_eq_u16Mod]
      exact Nat.mod_lt _ (by norm_num [u16Mod])
    refine ⟨?_, ?_⟩
    · simp [addPaintN, addPaint, hguard, hp]
    · have hstep : (addPaintN (n + 1)).paintCount
          = ((addPaintN n).paintCount + 1) % u16Mod := by
        simp [addPaintN, addPaint, hguard]
      rw [hstep, hc, u16Mod_eq]
      omega

/-- One `addCV` call keeps the counter within capacity. -/
theorem addCV_count_le (s : CvArena) (p : Float2) (h : s.cvCount ≤ maxCvs) :
    (addCV s p).cvCount ≤ maxCvs := by
  unfold addCV
  split
  · next hlt => simpa using hlt
  · exact h

/-- Any sequence of `addCV` calls keeps the counter within capacity. -/
theorem foldl_addCV_count_le (ps : List Float2) (s : CvArena)
    (h : s.cvCount ≤ maxCvs) : (ps.foldl addCV s).cvCount ≤ maxCvs := by
  induction ps generalizing s with
  | nil => exact h
  | cons p rest ih => exact ih _ (addCV_count_le s p h)

/-! ## Claims about the arenas -/

/-- Claim C5: an `addCV` call with `cvCount < maxCvs` writes `p` at the
cursor and increments the cursor and counter; a call with `cvCount` at (or
past) `maxCvs` is a no-op changing neither the cursor, nor the counter, nor
any entry; a successful call never changes a previously written entry; and
along every call sequence `cvCount` never exceeds `maxCvs`. -/
theorem C5_addCV_bounded :
    (∀ (s : CvArena) (p : Float2), s.cvCount < maxCvs →
      (addCV s p).cvMem s.cvPtr = p ∧
      (addCV s p).cvPtr = s.cvPtr + 1 ∧
      (addCV s p).cvCount = s.cvCount + 1 ∧
      ∀ j, j ≠ s.cvPtr → (addCV s p).cvMem j = s.cvMem j) ∧
    (∀ (s : CvArena) (p : Float2), maxCvs ≤ s.cvCount → addCV s p = s) ∧
    (∀ (ps : List Float2) (s : CvArena), s.cvCount ≤ maxCvs →
      (ps.foldl addCV s).cvCount ≤ maxCvs) := by
  refine ⟨fun s p h => ?_, fun s p h => ?_, foldl_addCV_count_le⟩
  · refine ⟨?_, ?_, ?_, fun j hj => ?_⟩
    · simp [addCV, h]
    · simp [addCV, h]
    · simp [addCV, h]
    · simp [addCV, h, Function.update_noteq hj]
  · simp [addCV, Nat.not_lt.mpr h]

/-- Claim C7: the capacity constants are `maxPrims = 65536` and
`maxCvs = 1024*1024 = 1048576`, and the transform and paint arenas both use
`maxPrims` as the bound in their guard: `addxform` (resp. `addPaint`)
advances its cursor exactly when the counter is below `maxPrims`. -/
theorem C7_capacities :
    maxPrims = 65536 ∧ maxCvs = 1048576 ∧
    (∀ (s : XformArena) (M : Mat3),
      (addxform s M).1.xformPtr = s.xformPtr + 1 ↔ s.xformCount < maxPrims) ∧
    (∀ (s : PaintArena) (q : VgerPaint),
      (addPaint s q).1.paintPtr = s.paintPtr + 1 ↔ s.paintCount < maxPrims) ∧
    (∀ (s : CvArena) (p : Float2),
      (addCV s p).cvPtr = s.cvPtr + 1 ↔ s.cvCount < maxCvs) := by
  refine ⟨rfl, rfl, fun s M => ?_, fun s q => ?_, fun s p => ?_⟩
  · constructor
    · intro h
      by_contra hn
      simp only [addxform, if_neg hn] at h
      omega
    · intro h
      simp [addxform, h]
  · constructor
    · intro h
      by_contra hn
      simp only [addPaint, if_neg hn] at h
      omega
    · intro h
      simp [addPaint, h]
  · constructor
    · intro h
      by_contra hn
      simp only [addCV, if_neg hn] at h
      omega
    · intro h
      simp [addCV, h]

/-- Claim C8: every `uint16_t` counter value is below `maxPrims = 65536`, so
the guards of `addxform` and `addPaint` always hold and the no-write branch
is unreachable; every call writes the item at the cursor, advances the
cursor, and returns the number of prior calls modulo `2^16`. -/
theorem C8_guard_always_true :
    (∀ c : Nat, c < u16Mod → c < maxPrims) ∧
    (∀ (s : XformArena) (M : Mat3), s.xformCount < u16Mod →
      (addxform s M).1.xformMem s.xformPtr = M ∧
      (addxform s M).1.xformPtr = s.xformPtr + 1 ∧
      (addxform s M).2 = s.xformCount) ∧
    (∀ (s : PaintArena) (q : VgerPaint), s.paintCount < u16Mod →
      (addPaint s q).1.paintMem s.paintPtr = q ∧
      (addPaint s q).1.paintPtr = s.paintPtr + 1 ∧
      (addPaint s q).2 = s.paintCount) ∧
    (∀ n : Nat, (addxform (addxformN n) m3id).2 = n % u16Mod ∧
      (addxformN (n + 1)).xformPtr = n + 1) ∧
    (∀ n : Nat, (addPaint (addPaintN n) default).2 = n % u16Mod ∧
      (addPaintN (n + 1)).paintPtr = n + 1) := by
  have hmp : ∀ c : Nat, c < u16Mod → c < maxPrims := fun c h =>
    maxPrims_eq_u16Mod ▸ h
  refine ⟨hmp, fun s M h => ?_, fun s q h => ?_, fun n => ⟨?_, ?_⟩,
    fun n => ⟨?_, ?_⟩⟩
  · simp [addxform, hmp _ h]
  · simp [addPaint, hmp _ h]
  · have hc := (addxformN_spec n).2
    have hguard : (addxformN n).xformCount < maxPrims := by
      rw [hc, maxPrims_eq_u16Mod]
      exact Nat.mod_lt _ (by norm_num [u16Mod])
    rw [hc] at hguard
    simp [addxform, hc, hguard]
  · exact (addxformN_spec (n + 1)).1
  · have hc := (addPaintN_spec n).2
    have hguard : (addPaintN n).paintCount < maxPrims := by
      rw [hc, maxPrims_eq_u16Mod]
      exact Nat.mod_lt _ (by norm_num [u16Mod])
    rw [hc] at hguard
    simp [addPaint, hc, hguard]
  · exact (addPaintN_spec (n + 1)).1

/-- Claim C1: evidence that the sentinel branch of `addxform` cannot protect
the arena. The `uint16_t` counter wraps at `2^16 = maxPrims`, so its guard
always holds: after 65537 consecutive calls from a fresh arena the write
cursor stands at offset 65537, strictly past the capacity `maxPrims`, the
65537th call has still written and advanced (no call was ever dropped), and
it returned the wrapped index 0 rather than its true position 65536. -/
theorem C1_addxform_overflow_bug :
    (addxformN 65537).xformPtr = 65537 ∧
    maxPrims < (addxformN 65537).xformPtr ∧
    (addxform (addxformN 65536) m3id).2 = 0 ∧
    (addxform (addxformN 65536) m3id).1.xformPtr = 65537 := by
  have h65537 := addxformN_spec 65537
  have h := addxformN_spec 65536
  have hc := h.2
  have hguard : (addxformN 65536).xformCount < maxPrims := by
    rw [hc, maxPrims_eq_u16Mod]
    exact Nat.mod_lt _ (by norm_num [u16Mod])
  refine ⟨h65537.1, ?_, ?_, ?_⟩
  · rw [h65537.1, maxPrims]; omega
  · simp [addxform, hguard, hc, u16Mod_eq, maxPrims]
  · simp [addxform, hguard, h.1]

/-! ## Text layout key lemmas -/

/-- The generated `operator==` decides structural equality of keys. -/
theorem tlkEq_iff (a b : TextLayoutKey) : tlkEq a b = true ↔ a = b := by
  cases a; cases b
  simp [tlkEq, TextLayoutKey.mk.injEq, and_assoc]

theorem tlkEq_refl (a : TextLayoutKey) : tlkEq a a = true :=
  (tlkEq_iff a a).mpr rfl

theorem tlkEq_eq_decide (a b : TextLayoutKey) : tlkEq a b = decide (a = b) := by
  by_cases h : a = b
  · subst h
    simp [tlkEq_refl]
  · simp only [decide_eq_false h]
    exact Bool.eq_false_iff.mpr fun hc => h ((tlkEq_iff a b).mp hc)

/-! ## Text cache lookup lemmas -/

theorem lookupCache_setLastFrame (c : Cache) (k kt : TextLayoutKey) (f : Nat) :
    lookupCache (setLastFrame c kt f) k =
      if k = kt then
        (lookupCache c k).map fun i => { i with lastFrame := f }
      else lookupCache c k := by
  induction c with
  | nil =>
    simp only [setLastFrame, lookupCache]
    split <;> rfl
  | cons kv rest ih =>
    obtain ⟨k0, i0⟩ := kv
    simp only [setLastFrame]
    by_cases hB : tlkEq kt k0
    · have hBp : kt = k0 := (tlkEq_iff _ _).mp hB
      subst hBp
      rw [if_pos hB]
      by_cases hA : tlkEq k kt
      · have hAp : k = kt := (tlkEq_iff _ _).mp hA
        simp [lookupCache, hB, hA, hAp]
      · have hAp : k ≠ kt := fun he => hA ((tlkEq_iff _ _).mpr he)
        simp [lookupCache, hA, hAp, ih]
    · have hBp : kt ≠ k0 := fun he => hB ((tlkEq_iff _ _).mpr he)
      rw [if_neg hB]
      by_cases hA : tlkEq k k0
      · have hAp : k = k0 := (tlkEq_iff _ _).mp hA
        have hkt : k ≠ kt := by
          intro he
          rw [he] at hAp
          exact hBp hAp
        simp [lookupCache, hA, hkt]
      · simp [lookupCache, hA, ih]

theorem lookupCache_append_of_some (c l : Cache) (k : TextLayoutKey)
    (i : TextLayoutInfo) (h : lookupCache c k = some i) :
    lookupCache (c ++ l) k = some i := by
  induction c with
  | nil => simp [lookupCache] at h
  | cons kv rest ih =>
    by_cases hA : tlkEq k kv.1 <;> simp_all [lookupCache]

theorem lookupCache_append_of_none (c l : Cache) (k : TextLayoutKey)
    (h : lookupCache c k = none) :
    lookupCache (c ++ l) k = lookupCache l k := by
  induction c with
  | nil => simp [lookupCache]
  | cons kv rest ih =>
    by_cases hA : tlkEq k kv.1 <;> simp_all [lookupCache]

theorem lookupCache_mem (c : Cache) (k : TextLayoutKey) (i : TextLayoutInfo)
    (h : lookupCache c k = some i) : (k, i) ∈ c := by
  induction c with
  | nil => simp [lookupCache] at h
  | cons kv rest ih =>
    obtain ⟨k0, i0⟩ := kv
    by_cases hA : tlkEq k k0
    · have hk : k = k0 := (tlkEq_iff _ _).mp hA
      rw [lookupCache, if_pos hA] at h
      cases h
      subst hk
      exact List.mem_cons_self _ _
    · rw [lookupCache, if_neg hA] at h
      exact List.mem_cons_of_mem _ (ih h)

theorem mem_pruneCache (c : Cache) (f : Nat)
    (kv : TextLayoutKey × TextLayoutInfo) :
    kv ∈ pruneCache c f ↔ kv ∈ c ∧ kv.2.lastFrame = f := by
  simp [pruneCache, List.mem_filter]

theorem lookupCache_pruneCache_of_frame (c : Cache) (k : TextLayoutKey)
    (i : TextLayoutInfo) (f : Nat) (h : lookupCache c k = some i)
    (hf : i.lastFrame = f) : lookupCache (pruneCache c f) k = some i := by
  induction c with
  | nil => simp [lookupCache] at h
  | cons kv rest ih =>
    obtain ⟨k0, i0⟩ := kv
    by_cases hA : tlkEq k k0
    · rw [lookupCache, if_pos hA] at h
      cases h
      simp [pruneCache, List.filter_cons, hf, lookupCache, hA]
    · rw [lookupCache, if_neg hA] at h
      have hrest := ih h
      by_cases hk : i0.lastFrame = f <;>
        simp [pruneCache, List.filter_cons, hk, lookupCache, hA] <;>
        simpa [pruneCache] using hrest

theorem lookupCache_pruneCache_none (c : Cache) (k : TextLayoutKey) (f : Nat)
    (h : ∀ i : TextLayoutInfo, (k, i) ∈ c → i.lastFrame ≠ f) :
    lookupCache (pruneCache c f) k = none := by
  cases hl : lookupCache (pruneCache c f) k with
  | none => rfl
  | some i =>
    have hm := lookupCache_mem _ _ _ hl
    rw [mem_pruneCache] at hm
    exact absurd hm.2 (h i hm.1)

/-! ## Frame rendering lemmas -/

theorem lookupCache_touchKey_self (sh : TextLayoutKey → List VPrim) (f : Nat)
    (c : Cache) (k : TextLayoutKey) :
    ∃ i, lookupCache (touchKey sh f c k) k = some i ∧ i.lastFrame = f := by
  unfold touchKey
  cases h : lookupCache c k with
  | some j =>
    refine ⟨{ j with lastFrame := f }, ?_, rfl⟩
    rw [lookupCache_setLastFrame, if_pos rfl, h]
    rfl
  | none =>
    refine ⟨{ lastFrame := f, prims := sh k }, ?_, rfl⟩
    rw [lookupCache_append_of_none _ _ _ h]
    simp [lookupCache, tlkEq_refl]

theorem lookupCache_touchKey_other (sh : TextLayoutKey → List VPrim)
    (f : Nat) (c : Cache) (k k1 : TextLayoutKey) (hne : k ≠ k1) :
    lookupCache (touchKey sh f c k1) k = lookupCache c k := by
  cases h : lookupCache c k1 with
  | some j =>
    have ht : touchKey sh f c k1 = setLastFrame c k1 f := by
      unfold touchKey
      rw [h]
    rw [ht, lookupCache_setLastFrame, if_neg hne]
  | none =>
    have ht : touchKey sh f c k1
        = c ++ [(k1, { lastFrame := f, prims := sh k1 })] := by
      unfold touchKey
      rw [h]
    rw [ht]
    cases hk : lookupCache c k with
    | some i => exact lookupCache_append_of_some _ _ _ _ hk
    | none =>
      rw [lookupCache_append_of_none _ _ _ hk]
      simp [lookupCache, tlkEq_eq_decide, hne]

theorem foldl_touchKey_preserves (sh : TextLayoutKey → List VPrim) (f : Nat)
    (ks : List TextLayoutKey) (c : Cache) (k : TextLayoutKey)
    (h : ∃ i, lookupCache c k = some i ∧ i.lastFrame = f) :
    ∃ i, lookupCache (ks.foldl (touchKey sh f) c) k = some i ∧
      i.lastFrame = f := by
  induction ks generalizing c with
  | nil => exact h
  | cons a rest ih =>
    refine ih (touchKey sh f c a) ?_
    by_cases ha : k = a
    · subst ha
      exact lookupCache_touchKey_self sh f c k
    · obtain ⟨i, hi, hif⟩ := h
      exact ⟨i, (lookupCache_touchKey_other sh f c k a ha).trans hi, hif⟩

theorem foldl_touchKey_present (sh : TextLayoutKey → List VPrim) (f : Nat)
    (ks : List TextLayoutKey) (c : Cache) (k : TextLayoutKey) (hk : k ∈ ks) :
    ∃ i, lookupCache (ks.foldl (touchKey sh f) c) k = some i ∧
      i.lastFrame = f := by
  induction ks generalizing c with
  | nil => cases hk
  | cons a rest ih =>
    by_cases ha : k = a
    · subst ha
      exact foldl_touchKey_preserves sh f rest (touchKey sh f c k) k
        (lookupCache_touchKey_self sh f c k)
    · have hk1 : k ∈ rest := by
        cases hk with
        | head => exact absurd rfl ha
        | tail _ h1 => exact h1
      exact ih (touchKey sh f c a) hk1

theorem mem_setLastFrame (c : Cache) (kt : TextLayoutKey) (f : Nat)
    (kv : TextLayoutKey × TextLayoutInfo) (h : kv ∈ setLastFrame c kt f)
    (hne : kv.1 ≠ kt) : kv ∈ c := by
  induction c with
  | nil => cases h
  | cons kv0 rest ih =>
    obtain ⟨k0, i0⟩ := kv0
    rw [setLastFrame] at h
    by_cases hB : tlkEq kt k0
    · have hBp : kt = k0 := (tlkEq_iff _ _).mp hB
      rw [if_pos hB] at h
      cases h with
      | head => exact absurd hBp.symm hne
      | tail _ h1 => exact List.mem_cons_of_mem _ (ih h1)
    · rw [if_neg hB] at h
      cases h with
      | head => exact List.mem_cons_self _ _
      | tail _ h1 => exact List.mem_cons_of_mem _ (ih h1)

theorem mem_touchKey_of_ne (sh : TextLayoutKey → List VPrim) (f : Nat)
    (c : Cache) (k1 : TextLayoutKey) (kv : TextLayoutKey × TextLayoutInfo)
    (h : kv ∈ touchKey sh f c k1) (hne : kv.1 ≠ k1) : kv ∈ c := by
  cases hl : lookupCache c k1 with
  | some j =>
    have ht : touchKey sh f c k1 = setLastFrame c k1 f := by
      unfold touchKey
      rw [hl]
    rw [ht] at h
    exact mem_setLastFrame c k1 f kv h hne
  | none =>
    have ht : touchKey sh f c k1
        = c ++ [(k1, { lastFrame := f, prims := sh k1 })] := by
      unfold touchKey
      rw [hl]
    rw [ht, List.mem_append] at h
    cases h with
    | inl h1 => exact h1
    | inr h1 =>
      exact absurd (congrArg Prod.fst (List.mem_singleton.mp h1)) hne

theorem mem_foldl_touchKey (sh : TextLayoutKey → List VPrim) (f : Nat)
    (ks : List TextLayoutKey) (c : Cache)
    (kv : TextLayoutKey × TextLayoutInfo)
    (h : kv ∈ ks.foldl (touchKey sh f) c) (hks : kv.1 ∉ ks) : kv ∈ c := by
  induction ks generalizing c with
  | nil => exact h
  | cons a rest ih =>
    have h1 : kv ∈ touchKey sh f c a :=
      ih (touchKey sh f c a) h fun hm => hks (List.mem_cons_of_mem _ hm)
    exact mem_touchKey_of_ne sh f c a kv h1
      fun he => hks (he ▸ List.mem_cons_self _ _)

theorem lookupCache_runFrame_present (sh : TextLayoutKey → List VPrim)
    (c : Cache) (f : Nat) (ks : List TextLayoutKey) (k : TextLayoutKey)
    (hk : k ∈ ks) :
    ∃ i, lookupCache (runFrame sh c f ks) k = some i ∧ i.lastFrame = f := by
  obtain ⟨i, hi, hif⟩ := foldl_touchKey_present sh f ks c k hk
  exact ⟨i, lookupCache_pruneCache_of_frame _ _ _ _ hi hif, hif⟩

theorem mem_runFrame_lastFrame (sh : TextLayoutKey → List VPrim) (c : Cache)
    (f : Nat) (ks : List TextLayoutKey)
    (kv : TextLayoutKey × TextLayoutInfo) (h : kv ∈ runFrame sh c f ks) :
    kv.2.lastFrame = f :=
  ((mem_pruneCache _ _ _).mp h).2

theorem lookupCache_runFrames_present (sh : TextLayoutKey → List VPrim)
    (k : TextLayoutKey) :
    ∀ (kss : List (List TextLayoutKey)) (c : Cache) (f n : Nat),
      (∀ l ∈ kss, k ∈ l) → 1 ≤ n → n ≤ kss.length →
      ∃ i, lookupCache (runFrames sh c f (kss.take n)) k = some i := by
  intro kss
  induction kss with
  | nil =>
    intro c f n _ h1 h2
    simp at h2
    omega
  | cons l rest ih =>
    intro c f n hall h1 h2
    cases n with
    | zero => omega
    | succ m =>
      rw [List.take_succ_cons]
      show ∃ i, lookupCache
        (runFrames sh (runFrame sh c f l) (f + 1) (rest.take m)) k = some i
      cases m with
      | zero =>
        obtain ⟨i, hi, _⟩ := lookupCache_runFrame_present sh c f l k
          (hall l (List.mem_cons_self _ _))
        exact ⟨i, by simpa [runFrames] using hi⟩
      | succ m2 =>
        refine ih (runFrame sh c f l) (f + 1) (m2 + 1)
          (fun l2 hl2 => hall l2 (List.mem_cons_of_mem _ hl2)) (by omega) ?_
        simp at h2
        omega

theorem lookupCache_runFrame_absent (sh : TextLayoutKey → List VPrim)
    (c : Cache) (g : Nat) (ks : List TextLayoutKey) (k : TextLayoutKey)
    (hk : k ∉ ks) (hall : ∀ i : TextLayoutInfo, (k, i) ∈ c → i.lastFrame ≠ g) :
    lookupCache (runFrame sh c g ks) k = none := by
  refine lookupCache_pruneCache_none _ _ _ fun i hm => ?_
  have hmc : (k, i) ∈ c := mem_foldl_touchKey sh g ks c (k, i) hm hk
  exact hall i hmc

/-! ## Claims about the text layout cache -/

/-- Claim C2: the prune pass removes exactly the entries whose `lastFrame`
differs from the current frame; a key rendered in frame `f` but not in frame
`f+1` is absent from the cache after frame `f+1` completes (render plus
prune); and a key rendered in every one of a run of consecutive frames is
present in the cache after each of those frames. -/
theorem C2_prune_law :
    (∀ (c : Cache) (f : Nat) (kv : TextLayoutKey × TextLayoutInfo),
      kv ∈ pruneCache c f ↔ kv ∈ c ∧ kv.2.lastFrame = f) ∧
    (∀ (sh : TextLayoutKey → List VPrim) (c : Cache) (f : Nat)
      (ks1 ks2 : List TextLayoutKey) (k : TextLayoutKey),
      k ∈ ks1 → k ∉ ks2 →
      lookupCache (runFrame sh (runFrame sh c f ks1) (f + 1) ks2) k = none) ∧
    (∀ (sh : TextLayoutKey → List VPrim) (c : Cache) (f : Nat)
      (kss : List (List TextLayoutKey)) (k : TextLayoutKey),
      (∀ l ∈ kss, k ∈ l) → ∀ n, 1 ≤ n → n ≤ kss.length →
      ∃ i, lookupCache (runFrames sh c f (kss.take n)) k = some i) := by
  refine ⟨mem_pruneCache, ?_, ?_⟩
  · intro sh c f ks1 ks2 k _ hk2
    refine lookupCache_runFrame_absent sh _ (f + 1) ks2 k hk2 ?_
    intro i hm
    have hf : i.lastFrame = f := mem_runFrame_lastFrame sh c f ks1 (k, i) hm
    omega
  · intro sh c f kss k hall n h1 h2
    exact lookupCache_runFrames_present sh k kss c f n hall h1 h2

/-- Claim C3: `renderCachedText` returns true exactly when the key is in the
text cache; on a hit it appends the cached prims to the current scene buffer
with their paint and transform handles rewritten to the caller-supplied
ones and stamps the entry with the current frame; on a miss it changes
neither the cache nor the scene buffer. -/
theorem C3_renderCachedText :
    ∀ (st : TextState) (key : TextLayoutKey) (paint xform : Nat),
      ((renderCachedText st key paint xform).2 = true ↔
        (lookupCache st.cache key).isSome = true) ∧
      (∀ info, lookupCache st.cache key = some info →
        (renderCachedText st key paint xform).1.scenePrims =
          st.scenePrims ++ info.prims.map (rewriteHandles paint xform) ∧
        lookupCache (renderCachedText st key paint xform).1.cache key =
          some { info with lastFrame := st.currentFrame } ∧
        (renderCachedText st key paint xform).1.currentFrame =
          st.currentFrame) ∧
      (lookupCache st.cache key = none →
        (renderCachedText st key paint xform).1 = st) := by
  intro st key paint xform
  refine ⟨?_, fun info hinfo => ?_, fun hnone => ?_⟩
  · cases h : lookupCache st.cache key <;> simp [renderCachedText, h]
  · refine ⟨by simp [renderCachedText, hinfo], ?_, by simp [renderCachedText, hinfo]⟩
    simp only [renderCachedText, hinfo]
    rw [lookupCache_setLastFrame, if_pos rfl, hinfo]
    rfl
  · simp [renderCachedText, hnone]

/-- Claim C4: the generated `operator==` on `TextLayoutKey` holds exactly
when all four fields (`str`, `size`, `align`, `breakRowWidth`) match; in
particular two keys differing only in `breakRowWidth` (the no-wrap sentinel
-1 versus 100) are unequal, and a cache holding both stores them as distinct
entries that look up to their own values. -/
theorem C4_key_equality :
    (∀ a b : TextLayoutKey, tlkEq a b = true ↔
      a.str = b.str ∧ a.size = b.size ∧ a.align = b.align ∧
        a.breakRowWidth = b.breakRowWidth) ∧
    tlkEq ⟨"hello", 16, 0, -1⟩ ⟨"hello", 16, 0, 100⟩ = false ∧
    (∀ i1 i2 : TextLayoutInfo,
      lookupCache [(⟨"hello", 16, 0, -1⟩, i1), (⟨"hello", 16, 0, 100⟩, i2)]
          ⟨"hello", 16, 0, -1⟩ = some i1 ∧
      lookupCache [(⟨"hello", 16, 0, -1⟩, i1), (⟨"hello", 16, 0, 100⟩, i2)]
          ⟨"hello", 16, 0, 100⟩ = some i2) := by
  have hne : ((-1 : ℚ)) ≠ 100 := by norm_num
  have hne2 : ((100 : ℚ)) ≠ -1 := by norm_num
  refine ⟨fun a b => ?_, ?_, fun i1 i2 => ⟨?_, ?_⟩⟩
  · cases a; cases b
    simp [tlkEq, and_assoc]
  · simp [tlkEq, hne]
  · simp [lookupCache, tlkEq]
  · simp [lookupCache, tlkEq, hne2]

/-- Claim C9: keys equal under the generated `operator==` have equal
`std::hash<TextLayoutKey>` values, whatever the standard library's field
hashers do, because equality and the hash are computed over the same ordered
four-field tuple. -/
theorem C9_hash_consistent (hstr : String → Nat) (hflt : ℚ → Nat)
    (hint : Int → Nat) (a b : TextLayoutKey) (h : tlkEq a b = true) :
    tlkHash hstr hflt hint a = tlkHash hstr hflt hint b := by
  rw [(tlkEq_iff a b).mp h]

/-- Witness for C9 at a concrete key pair and concrete field hashers. -/
theorem C9_hash_consistent_witness :
    tlkEq ⟨"w", 12, 1, -1⟩ ⟨"w", 12, 1, -1⟩ = true ∧
    tlkHash (fun _ => 3) (fun _ => 5) (fun _ => 7) ⟨"w", 12, 1, -1⟩ =
      tlkHash (fun _ => 3) (fun _ => 5) (fun _ => 7) ⟨"w", 12, 1, -1⟩ :=
  ⟨tlkEq_refl _,
    C9_hash_consistent (fun _ => 3) (fun _ => 5) (fun _ => 7) _ _
      (tlkEq_refl _)⟩

/-! ## Scene buffer set -/

/-- Claim C6: the scene buffer set cycles with period 3: from any in-range
buffer index, three `advance()` calls return the current buffer index to its
original value, and at that point the four arenas of that buffer have been
reset to zero count. -/
theorem C6_advance_period3 (s : BufferSet) (h : s.curBuffer < 3) :
    (advance (advance (advance s))).curBuffer = s.curBuffer ∧
    (advance (advance (advance s))).scenes ⟨s.curBuffer, h⟩ = ⟨0, 0, 0, 0⟩ := by
  have h3 : (((s.curBuffer + 1) % 3 + 1) % 3 + 1) % 3 = s.curBuffer := by
    omega
  constructor
  · simp only [advance]
    exact h3
  · simp only [advance]
    rw [Function.update_apply, if_pos (Fin.ext h3.symm)]

/-- Witness for C6 at a concrete buffer set with nonzero arena counts. -/
theorem C6_advance_period3_witness :
    (advance (advance (advance
      (⟨fun _ => ⟨1, 2, 3, 4⟩, 0⟩ : BufferSet)))).curBuffer = 0 ∧
    (advance (advance (advance
      (⟨fun _ => ⟨1, 2, 3, 4⟩, 0⟩ : BufferSet)))).scenes ⟨0, by norm_num⟩ =
      ⟨0, 0, 0, 0⟩ :=
  C6_advance_period3 ⟨fun _ => ⟨1, 2, 3, 4⟩, 0⟩ (by norm_num)

/-! ## Linear gradient -/

/-- The adjugate-over-determinant formula is a two-sided inverse on any
3x3 matrix with nonzero determinant. -/
theorem m3inv_mul (m : Mat3) (hd : m3det m ≠ 0) :
    m3mul (m3inv m) m = m3id ∧ m3mul m (m3inv m) = m3id := by
  have hd' : m.m00 * (m.m11 * m.m22 - m.m12 * m.m21)
      - m.m01 * (m.m10 * m.m22 - m.m12 * m.m20)
      + m.m02 * (m.m10 * m.m21 - m.m11 * m.m20) ≠ 0 := by
    simpa [m3det] using hd
  constructor <;>
    · simp only [m3mul, m3inv, m3id, m3det]
      rw [Mat3.mk.injEq]
      refine ⟨?_, ?_, ?_, ?_, ?_, ?_, ?_, ?_, ?_⟩ <;>
        · field_simp
          ring

theorem m3det_gradMatrix (start stop : Float2) :
    m3det (gradMatrix start stop) = lengthSq (gradDir start stop) := by
  simp only [m3det, gradMatrix, lengthSq]
  ring

theorem lengthSq_gradDir_pos (start stop : Float2) :
    0 < lengthSq (gradDir start stop) := by
  by_cases hsmall : lengthSq ⟨stop.x - start.x, stop.y - start.y⟩
      < (1 / 10000) ^ 2
  · simp only [gradDir, if_pos hsmall]
    norm_num [lengthSq]
  · simp only [gradDir, if_neg hsmall]
    calc (0 : ℚ) < (1 / 10000) ^ 2 := by norm_num
      _ ≤ _ := not_lt.mp hsmall

/-- Claim C10: for all inputs, `makeLinearGradient` yields a paint with
`image = -1`, the given colors, and a transform that is the (two-sided)
inverse of a matrix whose determinant is nonzero; when the line from `start`
to `stop` is shorter than `0.0001` (in particular when the endpoints
coincide) the gradient direction falls back to `(0, 1)`, so the paint is
well-defined for every input. -/
theorem C10_makeLinearGradient :
    ∀ (start stop : Float2) (innerColor outerColor : Float4),
      (makeLinearGradient start stop innerColor outerColor).image = -1 ∧
      (makeLinearGradient start stop innerColor outerColor).innerColor
        = innerColor ∧
      (makeLinearGradient start stop innerColor outerColor).outerColor
        = outerColor ∧
      m3det (gradMatrix start stop) ≠ 0 ∧
      m3mul (makeLinearGradient start stop innerColor outerColor).xform
        (gradMatrix start stop) = m3id ∧
      m3mul (gradMatrix start stop)
        (makeLinearGradient start stop innerColor outerColor).xform = m3id ∧
      (lengthSq ⟨stop.x - start.x, stop.y - start.y⟩ < (1 / 10000) ^ 2 →
        gradDir start stop = ⟨0, 1⟩) := by
  intro start stop innerColor outerColor
  have hd : m3det (gradMatrix start stop) ≠ 0 := by
    rw [m3det_gradMatrix]
    exact ne_of_gt (lengthSq_gradDir_pos start stop)
  obtain ⟨hl, hr⟩ := m3inv_mul (gradMatrix start stop) hd
  exact ⟨rfl, rfl, rfl, hd, hl, hr,
    fun hsmall => by simp only [gradDir, if_pos hsmall]⟩

end Vger
